import Mathlib

/-!
Verification of the `isup` endpoint-monitoring library.

The development shallowly embeds the core of the repository:

* `src/strategy/weighted_log.rs` — the `WeightedLog` scoring strategy.
  Durations are carried as exact nanosecond counts (`ℕ`). The `f32`
  arithmetic of the weighted response average, whose rounding is
  observable in the result, is modelled exactly: `f32round` performs
  IEEE round-to-nearest, ties to even, on a 24-bit significand. The
  remaining `f32` arithmetic (status weights, reliability, score) is
  embedded as exact rational arithmetic (`ℚ`).
  The source's `score` field is the natural logarithm of a base value
  (`base_score.ln()`); since the logarithm is transcendental, the embedded
  `Score` carries the exact logarithm argument in the field `score_base`,
  and theorems about the score speak of `Real.log score_base`.
* `src/store/memory.rs` — the in-memory store's `best_url`, including the
  partiality of `f32::partial_cmp` (NaN) and the panicking `expect`.
* `src/lib.rs` — `Service::update_score` / `Service::update` and
  `Service::remove_request`, with the store backend abstracted as the
  outcome functions of its `get`/`set` calls and panics modelled as `none`.
-/

namespace Isup

/-- WeightedLog strategy configuration (`weight`, `effort`), from
`src/strategy/weighted_log.rs`. -/
structure WeightedLog where
  weight : ℚ
  effort : ℚ
deriving DecidableEq

/-- `Default for WeightedLog`: `{ weight: 0.5, effort: 10.0 }`. -/
def WeightedLog.default : WeightedLog := ⟨1/2, 10⟩

namespace WeightedLog

/-- `STATUS_NO_ERROR: f32 = 1.0`. -/
def STATUS_NO_ERROR : ℚ := 1

/-- `STATUS_RECOVERABLE: f32 = 0.7`. -/
def STATUS_RECOVERABLE : ℚ := 7/10

/-- `STATUS_SERVER_ERROR: f32 = 0.5`. -/
def STATUS_SERVER_ERROR : ℚ := 1/2

/-- `STATUS_UNDEFINED: f32 = 0.3`. -/
def STATUS_UNDEFINED : ℚ := 3/10

/-- `STATUS_NON_RECOVERABLE: f32 = 0.2`. -/
def STATUS_NON_RECOVERABLE : ℚ := 1/5

/-- `RELIABILITY_FACTOR: f32 = 0.001`. -/
def RELIABILITY_FACTOR : ℚ := 1/1000

/-- `WeightedLog::get_status_weight`: the ordered `match` on the `u16`
status code (the first matching arm wins, as in the Rust `match`). -/
def get_status_weight (status : ℕ) : ℚ :=
  if 100 ≤ status ∧ status ≤ 399 then STATUS_NO_ERROR
  else if status = 408 ∨ status = 429 then STATUS_RECOVERABLE
  else if 400 ≤ status ∧ status ≤ 499 then STATUS_NON_RECOVERABLE
  else if 500 ≤ status ∧ status ≤ 599 then STATUS_SERVER_ERROR
  else STATUS_UNDEFINED

end WeightedLog

/-- A `Score` (`src/score.rs`): `response_avg` in exact nanoseconds,
`reliability`, and — in place of the source's `score: f32`, which is
`base_score.ln()` — the exact logarithm argument `score_base`, so that
the source's score value is `Real.log score_base`. -/
structure Score where
  response_avg : ℕ
  score_base : ℚ
  reliability : ℚ
deriving DecidableEq

/-- `Score::default` = `{0, 0, 0}`; a score of `0` is `Real.log 1`,
so `score_base = 1`. -/
def Score.default : Score := ⟨0, 1, 0⟩

/-- Rust's `f32::clamp(self, min, max)`: `min` if below, `max` if above,
otherwise the value itself. -/
def rustClamp (x lo hi : ℚ) : ℚ :=
  if x < lo then lo else if x > hi then hi else x

/-- Round-to-nearest of a real-valued significand to an integer, ties
to even: the mantissa rounding step of an IEEE binary format. -/
def roundMantissa (m : ℚ) : ℤ :=
  if m - ⌊m⌋ < 1/2 then ⌊m⌋
  else if 1/2 < m - ⌊m⌋ then ⌊m⌋ + 1
  else if ⌊m⌋ % 2 = 0 then ⌊m⌋ else ⌊m⌋ + 1

/-- Round a positive rational to the nearest `f32` value: scale into
the binade `[2^23, 2^24)`, round the 24-bit significand to nearest
(ties to even), and scale back. The exponent is unbounded: overflow and
subnormals are not modelled, which is faithful for the nanosecond
magnitudes (below `2^63`) at which the response-average pipeline is
used. -/
def f32roundPos (q : ℚ) : ℚ :=
  (roundMantissa (q / 2 ^ (Int.log 2 q - 23)) : ℚ) * 2 ^ (Int.log 2 q - 23)

/-- `f32` round-to-nearest(-even) of a rational: sign-symmetric,
`0 ↦ 0`. Models Rust's integer-to-`f32` casts and the rounding of each
`f32` multiplication, addition and subtraction. -/
def f32round (q : ℚ) : ℚ :=
  if q < 0 then -f32roundPos (-q) else if q = 0 then 0 else f32roundPos q

namespace WeightedLog

/-- `WeightedLog::adjust_reliability`: the ordered `match` choosing the
increment, then `clamp(0.0, 1.0)`. -/
def adjust_reliability (wl : WeightedLog) (reliability : ℚ) (status_code : ℕ) : ℚ :=
  let increment : ℚ :=
    if 200 ≤ status_code ∧ status_code ≤ 299 then RELIABILITY_FACTOR
    else if (100 ≤ status_code ∧ status_code ≤ 199) ∨
            (300 ≤ status_code ∧ status_code ≤ 399) then 0
    else -(wl.effort * RELIABILITY_FACTOR)
  rustClamp (reliability + increment) 0 1

/-- `WeightedLog::weighted_response_average`: the nanosecond-domain
weighted average computed in `f32` — `as_nanos() as f32` rounds the
nanosecond counts, and the subtraction, each multiplication and the
addition round again (`f32round` at every step; `wl.weight` itself is
already an `f32` value). The concluding `as u64` cast truncates toward
zero (negative values saturate to 0), i.e. `Nat.floor`; its saturation
at `2^64 - 1` is not modelled, which is faithful for inputs up to
`2^63` ns. -/
def weighted_response_average (wl : WeightedLog) (current new : ℕ) : ℕ :=
  let weight_historical := f32round (1 - wl.weight)
  let weighted_historical_response := f32round (weight_historical * f32round (current : ℚ))
  let weighted_new_response := f32round (wl.weight * f32round (new : ℚ))
  let average_response := f32round (weighted_historical_response + weighted_new_response)
  ⌊average_response⌋₊

/-- The logarithm argument computed by
`WeightedLog::calculate_logarithmic_score`: the source returns
`base_score.ln()`, and this function returns exactly `base_score`
(`response.as_secs_f32()` is the nanosecond count divided by `10^9`). -/
def calculate_logarithmic_base (reliability status_weight : ℚ) (response : ℕ) : ℚ :=
  let response_influence := 1/10 + |1/2 - status_weight| * (15/100)
  let response_factor := 1 / (1 + ((response : ℚ) / 10^9) * response_influence)
  reliability * status_weight * response_factor + 1

/-- `<WeightedLog as Strategy>::calculate`: status weight, response
average over the prior average, adjusted reliability, and the
logarithmic score computed from the *new* response time. The prior
`score` field is never read. -/
def calculate (wl : WeightedLog) (score : Score) (new_response : ℕ) (status_code : ℕ) : Score :=
  let status_weight := get_status_weight status_code
  let response := weighted_response_average wl score.response_avg new_response
  let reliability := adjust_reliability wl score.reliability status_code
  let base := calculate_logarithmic_base reliability status_weight new_response
  ⟨response, base, reliability⟩

end WeightedLog

/-- The weight table exactly as the specification words it: disjoint
classes 100–399, {408, 429}, other 400–499, 500–599, and everything
else (including the sentinel status 0). -/
def statusWeightSpec (status : ℕ) : ℚ :=
  if 100 ≤ status ∧ status ≤ 399 then 1
  else if status = 408 ∨ status = 429 then 7/10
  else if (400 ≤ status ∧ status ≤ 499) ∧ status ≠ 408 ∧ status ≠ 429 then 1/5
  else if 500 ≤ status ∧ status ≤ 599 then 1/2
  else 3/10

/-- Claim C3: for every u16 status code, the WeightedLog status weight
equals exactly the fixed lookup: 1.0 for 100–399, 0.7 for 408 and 429,
0.2 for every other code in 400–499, 0.5 for 500–599, and 0.3 for
everything else including the sentinel status 0 used for transport
failures. -/
theorem c3_status_weight_lookup (status : ℕ) :
    WeightedLog.get_status_weight status = statusWeightSpec status := by
  unfold WeightedLog.get_status_weight statusWeightSpec
    WeightedLog.STATUS_NO_ERROR WeightedLog.STATUS_RECOVERABLE
    WeightedLog.STATUS_NON_RECOVERABLE WeightedLog.STATUS_SERVER_ERROR
    WeightedLog.STATUS_UNDEFINED
  split_ifs <;> first | rfl | omega

/-- The reliability delta exactly as the specification words it:
`+0.001` for 200–299, `0` for 100–199 and 300–399, `−(effort · 0.001)`
otherwise. -/
def reliabilityDeltaSpec (effort : ℚ) (status : ℕ) : ℚ :=
  if 200 ≤ status ∧ status ≤ 299 then 1/1000
  else if (100 ≤ status ∧ status ≤ 199) ∨ (300 ≤ status ∧ status ≤ 399) then 0
  else -(effort * (1/1000))

/-- Claim C4: for every prior Score and every u16 status,
`WeightedLog.calculate` produces
`reliability' = clamp(prior.reliability + delta, 0, 1)` with delta as in
`reliabilityDeltaSpec`; consequently the resulting reliability always
lies in `[0, 1]`. -/
theorem c4_reliability_clamp (wl : WeightedLog) (s : Score) (new_response status : ℕ) :
    (WeightedLog.calculate wl s new_response status).reliability =
      max 0 (min 1 (s.reliability + reliabilityDeltaSpec wl.effort status)) ∧
    0 ≤ (WeightedLog.calculate wl s new_response status).reliability ∧
    (WeightedLog.calculate wl s new_response status).reliability ≤ 1 := by
  have hδ :
      (WeightedLog.calculate wl s new_response status).reliability =
        rustClamp (s.reliability + reliabilityDeltaSpec wl.effort status) 0 1 := by
    unfold WeightedLog.calculate WeightedLog.adjust_reliability
      reliabilityDeltaSpec WeightedLog.RELIABILITY_FACTOR
    split_ifs <;> rfl
  rw [hδ]
  unfold rustClamp
  set x := s.reliability + reliabilityDeltaSpec wl.effort status with hx
  split_ifs with h1 h2 <;>
    refine ⟨?_, ?_, ?_⟩ <;> [skip; norm_num; norm_num; skip; norm_num;
      norm_num; skip; push_neg at h1 h2; push_neg at h1 h2] <;>
    first
      | (rw [min_eq_right (by linarith), max_eq_left (by linarith)])
      | (rw [min_eq_left (by linarith), max_eq_right (by linarith)])
      | (rw [min_eq_right (by linarith), max_eq_right (by linarith)])
      | linarith

/-- Every status weight in the lookup table is positive. -/
theorem get_status_weight_pos (status : ℕ) : 0 < WeightedLog.get_status_weight status := by
  unfold WeightedLog.get_status_weight WeightedLog.STATUS_NO_ERROR
    WeightedLog.STATUS_RECOVERABLE WeightedLog.STATUS_NON_RECOVERABLE
    WeightedLog.STATUS_SERVER_ERROR WeightedLog.STATUS_UNDEFINED
  split_ifs <;> norm_num

/-- Clamping to `[0, 1]` always lands in `[0, 1]`. -/
theorem rustClamp_unit_mem (x : ℚ) : 0 ≤ rustClamp x 0 1 ∧ rustClamp x 0 1 ≤ 1 := by
  unfold rustClamp
  split_ifs <;> constructor <;> linarith

/-- The adjusted reliability is always within `[0, 1]` (the clamp). -/
theorem adjust_reliability_mem (wl : WeightedLog) (r : ℚ) (status : ℕ) :
    0 ≤ WeightedLog.adjust_reliability wl r status ∧
      WeightedLog.adjust_reliability wl r status ≤ 1 := by
  simp only [WeightedLog.adjust_reliability]
  exact rustClamp_unit_mem _

/-- The logarithm argument is at least `1` whenever the reliability is
nonnegative and the status weight positive. -/
theorem calculate_logarithmic_base_ge_one (r sw : ℚ) (response : ℕ)
    (hr : 0 ≤ r) (hsw : 0 < sw) :
    1 ≤ WeightedLog.calculate_logarithmic_base r sw response := by
  simp only [WeightedLog.calculate_logarithmic_base]
  have hresp : (0:ℚ) ≤ (response : ℚ) / 10^9 := by positivity
  have hinfl : (0:ℚ) < 1/10 + |1/2 - sw| * (15/100) := by positivity
  have hden : (0:ℚ) < 1 + ((response : ℚ) / 10^9) * (1/10 + |1/2 - sw| * (15/100)) := by
    nlinarith
  have hfac : (0:ℚ) ≤ 1 / (1 + ((response : ℚ) / 10^9) * (1/10 + |1/2 - sw| * (15/100))) := by
    positivity
  have hprod := mul_nonneg (mul_nonneg hr hsw.le) hfac
  linarith

/-- Claim C5: for every prior Score with reliability in `[0,1]`, every
nonnegative duration and every u16 status, `WeightedLog.calculate`
yields a score ≥ 0: the argument of the logarithm is always ≥ 1, so the
source's `score = ln(base)` is nonnegative. -/
theorem c5_score_nonneg (wl : WeightedLog) (s : Score) (new_response status : ℕ)
    (h0 : 0 ≤ s.reliability) (h1 : s.reliability ≤ 1) :
    1 ≤ (WeightedLog.calculate wl s new_response status).score_base ∧
    0 ≤ Real.log ((WeightedLog.calculate wl s new_response status).score_base : ℝ) := by
  have hbase : 1 ≤ (WeightedLog.calculate wl s new_response status).score_base := by
    show 1 ≤ WeightedLog.calculate_logarithmic_base
      (WeightedLog.adjust_reliability wl s.reliability status)
      (WeightedLog.get_status_weight status) new_response
    exact calculate_logarithmic_base_ge_one _ _ _
      (adjust_reliability_mem wl s.reliability status).1
      (get_status_weight_pos status)
  refine ⟨hbase, Real.log_nonneg ?_⟩
  exact_mod_cast hbase

/-- Witness for C5 at the default strategy, the default prior score,
a 0ns response and the sentinel status 0. -/
theorem c5_score_nonneg_witness :
    0 ≤ Score.default.reliability ∧ Score.default.reliability ≤ 1 ∧
    1 ≤ (WeightedLog.calculate WeightedLog.default Score.default 0 0).score_base ∧
    0 ≤ Real.log ((WeightedLog.calculate WeightedLog.default Score.default 0 0).score_base : ℝ) := by
  refine ⟨by norm_num [Score.default], by norm_num [Score.default], ?_⟩
  have h := c5_score_nonneg WeightedLog.default Score.default 0 0
    (by norm_num [Score.default]) (by norm_num [Score.default])
  exact h

/-- `Int.log 2` is characterized by the enclosing binade. -/
theorem int_log2_eq (q : ℚ) (E : ℤ) (h0 : 0 < q)
    (h1 : (2:ℚ)^E ≤ q) (h2 : q < (2:ℚ)^(E+1)) : Int.log 2 q = E := by
  have ha := Int.zpow_log_le_self (b := 2) one_lt_two h0
  have hb := Int.lt_zpow_succ_log_self (b := 2) one_lt_two q
  have hc : ((2:ℕ) : ℚ) = 2 := by norm_num
  rw [hc] at ha hb
  by_contra hne
  rcases lt_or_gt_of_ne hne with hlt | hgt
  · have : (2:ℚ) ^ (Int.log 2 q + 1) ≤ 2 ^ E :=
      zpow_le_zpow_right₀ (by norm_num) (by omega)
    linarith
  · have : (2:ℚ) ^ (E + 1) ≤ 2 ^ (Int.log 2 q) :=
      zpow_le_zpow_right₀ (by norm_num) (by omega)
    linarith

/-- Mantissa rounding moves a value by at most half a unit. -/
theorem roundMantissa_close (m : ℚ) : |(roundMantissa m : ℚ) - m| ≤ 1/2 := by
  have h0 : 0 ≤ m - ⌊m⌋ := by
    have := Int.floor_le m
    linarith
  have h1 : m - ⌊m⌋ < 1 := by
    have := Int.lt_floor_add_one m
    push_cast at this
    linarith
  unfold roundMantissa
  split_ifs with hf1 hf2 hf3 <;> push_cast <;> rw [abs_le] <;> constructor <;> linarith

/-- On positive inputs `f32round` is the positive-case rounding. -/
theorem f32round_of_pos (q : ℚ) (h : 0 < q) : f32round q = f32roundPos q := by
  unfold f32round
  rw [if_neg (by linarith), if_neg h.ne']

/-- Relative error of one positive `f32` rounding: at most `2^-24`. -/
theorem f32roundPos_err (q : ℚ) (hq : 0 < q) : |f32roundPos q - q| ≤ q / 2^24 := by
  have h2e : (0:ℚ) < 2 ^ (Int.log 2 q - 23) := zpow_pos (by norm_num) _
  have hmc := roundMantissa_close (q / 2 ^ (Int.log 2 q - 23))
  have hsplit : f32roundPos q - q =
      ((roundMantissa (q / 2 ^ (Int.log 2 q - 23)) : ℚ) - q / 2 ^ (Int.log 2 q - 23)) *
        2 ^ (Int.log 2 q - 23) := by
    unfold f32roundPos
    field_simp
  rw [hsplit, abs_mul, abs_of_pos h2e]
  have hb : |(roundMantissa (q / 2 ^ (Int.log 2 q - 23)) : ℚ) - q / 2 ^ (Int.log 2 q - 23)| *
      2 ^ (Int.log 2 q - 23) ≤ (1/2) * 2 ^ (Int.log 2 q - 23) :=
    mul_le_mul_of_nonneg_right hmc h2e.le
  refine hb.trans ?_
  have hlog : (2:ℚ) ^ (Int.log 2 q) ≤ q := by
    have := Int.zpow_log_le_self (b := 2) one_lt_two hq
    have hc : ((2:ℕ) : ℚ) = 2 := by norm_num
    rwa [hc] at this
  have hsplit2 : (2:ℚ) ^ (Int.log 2 q - 23) = (2:ℚ) ^ (Int.log 2 q) * (2:ℚ) ^ (-23 : ℤ) := by
    rw [sub_eq_add_neg, zpow_add₀ (by norm_num : (2:ℚ) ≠ 0)]
  have hneg : (2:ℚ) ^ (-23 : ℤ) = 1 / 2 ^ 23 := by norm_num
  rw [hsplit2, hneg]
  have hfold : (1:ℚ)/2 * (2 ^ Int.log 2 q * (1/2^23)) = 2 ^ Int.log 2 q / 2^24 := by ring
  rw [hfold]
  gcongr

/-- Zero rounds to zero. -/
theorem f32round_zero : f32round 0 = 0 := by
  norm_num [f32round]

/-- Relative error of `f32round` on nonnegative inputs. -/
theorem f32round_err (q : ℚ) (hq : 0 ≤ q) : |f32round q - q| ≤ q / 2^24 := by
  rcases hq.eq_or_lt with h | h
  · rw [← h, f32round_zero]
    norm_num
  · rw [f32round_of_pos q h]
    exact f32roundPos_err q h

/-- Two-sided multiplicative rounding bounds. -/
theorem f32round_bounds (q : ℚ) (hq : 0 ≤ q) :
    q * (1 - 1/2^24) ≤ f32round q ∧ f32round q ≤ q * (1 + 1/2^24) := by
  have h := f32round_err q hq
  rw [abs_sub_le_iff] at h
  constructor <;> nlinarith [h.1, h.2]

/-- Rounding preserves nonnegativity. -/
theorem f32round_nonneg (q : ℚ) (hq : 0 ≤ q) : 0 ≤ f32round q := by
  nlinarith [(f32round_bounds q hq).1]

/-- Evaluation of the positive rounding once the binade is known. -/
theorem f32roundPos_eval (q : ℚ) (E : ℤ) (h1 : (2:ℚ)^E ≤ q) (h2 : q < (2:ℚ)^(E+1)) :
    f32roundPos q = (roundMantissa (q / 2 ^ (E - 23)) : ℚ) * 2 ^ (E - 23) := by
  have h0 : 0 < q := lt_of_lt_of_le (zpow_pos (by norm_num) E) h1
  rw [f32roundPos, int_log2_eq q E h0 h1 h2]

/-- A value on the 24-bit grid of its binade rounds to itself. -/
theorem f32round_eq_self (q : ℚ) (E : ℤ) (h1 : (2:ℚ)^E ≤ q) (h2 : q < (2:ℚ)^(E+1))
    (k : ℤ) (hk : q = (k : ℚ) * 2 ^ (E - 23)) : f32round q = q := by
  have h0 : 0 < q := lt_of_lt_of_le (zpow_pos (by norm_num) E) h1
  rw [f32round_of_pos q h0, f32roundPos_eval q E h1 h2]
  have h2e : (0:ℚ) < 2 ^ (E - 23) := zpow_pos (by norm_num) _
  have hm : q / 2 ^ (E - 23) = (k : ℚ) := by
    rw [hk]
    field_simp
  rw [hm]
  have hrm : roundMantissa (k : ℚ) = k := by
    unfold roundMantissa
    rw [Int.floor_intCast]
    norm_num
  rw [hrm, ← hk]

/-- A midpoint above an odd grid point rounds up (ties to even). -/
theorem f32round_tie_up (q : ℚ) (E : ℤ) (h1 : (2:ℚ)^E ≤ q) (h2 : q < (2:ℚ)^(E+1))
    (k : ℤ) (hk : q = ((k : ℚ) + 1/2) * 2 ^ (E - 23)) (hodd : k % 2 = 1) :
    f32round q = ((k : ℚ) + 1) * 2 ^ (E - 23) := by
  have h0 : 0 < q := lt_of_lt_of_le (zpow_pos (by norm_num) E) h1
  rw [f32round_of_pos q h0, f32roundPos_eval q E h1 h2]
  have h2e : (0:ℚ) < 2 ^ (E - 23) := zpow_pos (by norm_num) _
  have hm : q / 2 ^ (E - 23) = (k : ℚ) + 1/2 := by
    rw [hk]
    field_simp
    ring
  rw [hm]
  have hfl : ⌊(k : ℚ) + 1/2⌋ = k := by
    rw [Int.floor_eq_iff]
    constructor
    · linarith
    · push_cast
      linarith
  have hrm : roundMantissa ((k : ℚ) + 1/2) = k + 1 := by
    unfold roundMantissa
    rw [hfl]
    have hc1 : ¬((k:ℚ) + 1/2 - k < 1/2) := by norm_num
    have hc2 : ¬(1/2 < (k:ℚ) + 1/2 - k) := by norm_num
    have hc3 : ¬(k % 2 = 0) := by omega
    rw [if_neg hc1, if_neg hc2, if_neg hc3]
  rw [hrm]
  push_cast
  ring

/-- One half is exactly representable. -/
theorem f32round_one_half : f32round ((1:ℚ)/2) = 1/2 :=
  f32round_eq_self (1/2) (-1) (by norm_num) (by norm_num) 8388608 (by norm_num)

set_option maxHeartbeats 1000000 in
/-- The rounded response-average pipeline stays within a `2^-21`
relative neighbourhood of the exact EMA (plus the 1 ns truncation). -/
theorem wra_bounds (wl : WeightedLog) (c n : ℕ)
    (hw0 : 0 ≤ wl.weight) (hw1 : wl.weight ≤ 1) :
    ((1 - wl.weight) * (c : ℚ) + wl.weight * (n : ℚ)) * (1 - 1/2^21) - 1 <
      (WeightedLog.weighted_response_average wl c n : ℚ) ∧
    (WeightedLog.weighted_response_average wl c n : ℚ) ≤
      ((1 - wl.weight) * (c : ℚ) + wl.weight * (n : ℚ)) * (1 + 1/2^21) := by
  have hdef : WeightedLog.weighted_response_average wl c n =
      ⌊f32round (f32round (f32round (1 - wl.weight) * f32round (c : ℚ)) +
        f32round (wl.weight * f32round (n : ℚ)))⌋₊ := rfl
  rw [hdef]
  set hwv := f32round (1 - wl.weight) with hhwv
  set fc := f32round ((c:ℚ)) with hfcv
  set fn := f32round ((n:ℚ)) with hfnv
  set p1 := f32round (hwv * fc) with hp1v
  set p2 := f32round (wl.weight * fn) with hp2v
  set sfin := f32round (p1 + p2) with hsfinv
  have hcq : (0:ℚ) ≤ (c:ℚ) := Nat.cast_nonneg c
  have hnq : (0:ℚ) ≤ (n:ℚ) := Nat.cast_nonneg n
  have hw' : (0:ℚ) ≤ 1 - wl.weight := by linarith
  have hfc := f32round_bounds (c:ℚ) hcq
  have hfc0 := f32round_nonneg (c:ℚ) hcq
  rw [← hfcv] at hfc hfc0
  have hfn := f32round_bounds (n:ℚ) hnq
  have hfn0 := f32round_nonneg (n:ℚ) hnq
  rw [← hfnv] at hfn hfn0
  have hhw := f32round_bounds (1 - wl.weight) hw'
  have hhw0 := f32round_nonneg (1 - wl.weight) hw'
  rw [← hhwv] at hhw hhw0
  have hp1a0 : (0:ℚ) ≤ hwv * fc := mul_nonneg hhw0 hfc0
  have hp1 := f32round_bounds (hwv * fc) hp1a0
  have hp10 := f32round_nonneg (hwv * fc) hp1a0
  rw [← hp1v] at hp1 hp10
  have hp2a0 : (0:ℚ) ≤ wl.weight * fn := mul_nonneg hw0 hfn0
  have hp2 := f32round_bounds (wl.weight * fn) hp2a0
  have hp20 := f32round_nonneg (wl.weight * fn) hp2a0
  rw [← hp2v] at hp2 hp20
  have hsum0 : (0:ℚ) ≤ p1 + p2 := add_nonneg hp10 hp20
  have hs := f32round_bounds (p1 + p2) hsum0
  have hs0 := f32round_nonneg (p1 + p2) hsum0
  rw [← hsfinv] at hs hs0
  -- bounds on the two rounded products
  have hA1u : hwv * fc ≤ ((1 - wl.weight) * (1 + 1/2^24)) * ((c:ℚ) * (1 + 1/2^24)) :=
    mul_le_mul hhw.2 hfc.2 hfc0 (mul_nonneg hw' (by norm_num))
  have hA1l : ((1 - wl.weight) * (1 - 1/2^24)) * ((c:ℚ) * (1 - 1/2^24)) ≤ hwv * fc :=
    mul_le_mul hhw.1 hfc.1 (mul_nonneg hcq (by norm_num)) hhw0
  have hA2u : wl.weight * fn ≤ wl.weight * ((n:ℚ) * (1 + 1/2^24)) :=
    mul_le_mul_of_nonneg_left hfn.2 hw0
  have hA2l : wl.weight * ((n:ℚ) * (1 - 1/2^24)) ≤ wl.weight * fn :=
    mul_le_mul_of_nonneg_left hfn.1 hw0
  have hwc0 : (0:ℚ) ≤ (1 - wl.weight) * (c:ℚ) := mul_nonneg hw' hcq
  have hwn0 : (0:ℚ) ≤ wl.weight * (n:ℚ) := mul_nonneg hw0 hnq
  -- after the product rounding
  have hp1u : p1 ≤ ((1 - wl.weight) * (c:ℚ)) * (1 + 1/2^24)^3 := by
    have h := mul_le_mul_of_nonneg_right hA1u (show (0:ℚ) ≤ 1 + 1/2^24 by norm_num)
    have he : (((1 - wl.weight) * (1 + 1/2^24)) * ((c:ℚ) * (1 + 1/2^24))) * (1 + 1/2^24) =
        ((1 - wl.weight) * (c:ℚ)) * (1 + 1/2^24)^3 := by ring
    linarith [hp1.2, h, he.le, he.ge]
  have hp1l : ((1 - wl.weight) * (c:ℚ)) * (1 - 1/2^24)^3 ≤ p1 := by
    have h := mul_le_mul_of_nonneg_right hA1l (show (0:ℚ) ≤ 1 - 1/2^24 by norm_num)
    have he : (((1 - wl.weight) * (1 - 1/2^24)) * ((c:ℚ) * (1 - 1/2^24))) * (1 - 1/2^24) =
        ((1 - wl.weight) * (c:ℚ)) * (1 - 1/2^24)^3 := by ring
    linarith [hp1.1, h, he.le, he.ge]
  have hp2u : p2 ≤ (wl.weight * (n:ℚ)) * (1 + 1/2^24)^3 := by
    have h := mul_le_mul_of_nonneg_right hA2u (show (0:ℚ) ≤ 1 + 1/2^24 by norm_num)
    have hg : (wl.weight * ((n:ℚ) * (1 + 1/2^24))) * (1 + 1/2^24) ≤
        (wl.weight * (n:ℚ)) * (1 + 1/2^24)^3 := by
      have hq : (wl.weight * (n:ℚ)) * (1 + 1/2^24)^2 ≤ (wl.weight * (n:ℚ)) * (1 + 1/2^24)^3 :=
        mul_le_mul_of_nonneg_left (by norm_num) hwn0
      have he : (wl.weight * ((n:ℚ) * (1 + 1/2^24))) * (1 + 1/2^24) =
          (wl.weight * (n:ℚ)) * (1 + 1/2^24)^2 := by ring
      linarith [he.le, he.ge]
    linarith [hp2.2, h]
  have hp2l : (wl.weight * (n:ℚ)) * (1 - 1/2^24)^3 ≤ p2 := by
    have h := mul_le_mul_of_nonneg_right hA2l (show (0:ℚ) ≤ 1 - 1/2^24 by norm_num)
    have hg : (wl.weight * (n:ℚ)) * (1 - 1/2^24)^3 ≤
        (wl.weight * ((n:ℚ) * (1 - 1/2^24))) * (1 - 1/2^24) := by
      have hq : (wl.weight * (n:ℚ)) * (1 - 1/2^24)^3 ≤ (wl.weight * (n:ℚ)) * (1 - 1/2^24)^2 :=
        mul_le_mul_of_nonneg_left (by norm_num) hwn0
      have he : (wl.weight * ((n:ℚ) * (1 - 1/2^24))) * (1 - 1/2^24) =
          (wl.weight * (n:ℚ)) * (1 - 1/2^24)^2 := by ring
      linarith [he.le, he.ge]
    linarith [hp2.1, h]
  -- the rounded sum
  have hsu : sfin ≤ ((1 - wl.weight) * (c:ℚ) + wl.weight * (n:ℚ)) * (1 + 1/2^24)^4 := by
    have hadd : p1 + p2 ≤ ((1 - wl.weight) * (c:ℚ) + wl.weight * (n:ℚ)) * (1 + 1/2^24)^3 := by
      have he : ((1 - wl.weight) * (c:ℚ)) * (1 + 1/2^24)^3 +
          (wl.weight * (n:ℚ)) * (1 + 1/2^24)^3 =
          ((1 - wl.weight) * (c:ℚ) + wl.weight * (n:ℚ)) * (1 + 1/2^24)^3 := by ring
      linarith [hp1u, hp2u, he.le, he.ge]
    have h := mul_le_mul_of_nonneg_right hadd (show (0:ℚ) ≤ 1 + 1/2^24 by norm_num)
    have he : (((1 - wl.weight) * (c:ℚ) + wl.weight * (n:ℚ)) * (1 + 1/2^24)^3) * (1 + 1/2^24) =
        ((1 - wl.weight) * (c:ℚ) + wl.weight * (n:ℚ)) * (1 + 1/2^24)^4 := by ring
    linarith [hs.2, h, he.le, he.ge]
  have hsl : ((1 - wl.weight) * (c:ℚ) + wl.weight * (n:ℚ)) * (1 - 1/2^24)^4 ≤ sfin := by
    have hadd : ((1 - wl.weight) * (c:ℚ) + wl.weight * (n:ℚ)) * (1 - 1/2^24)^3 ≤ p1 + p2 := by
      have he : ((1 - wl.weight) * (c:ℚ)) * (1 - 1/2^24)^3 +
          (wl.weight * (n:ℚ)) * (1 - 1/2^24)^3 =
          ((1 - wl.weight) * (c:ℚ) + wl.weight * (n:ℚ)) * (1 - 1/2^24)^3 := by ring
      linarith [hp1l, hp2l, he.le, he.ge]
    have h := mul_le_mul_of_nonneg_right hadd (show (0:ℚ) ≤ 1 - 1/2^24 by norm_num)
    have he : (((1 - wl.weight) * (c:ℚ) + wl.weight * (n:ℚ)) * (1 - 1/2^24)^3) * (1 - 1/2^24) =
        ((1 - wl.weight) * (c:ℚ) + wl.weight * (n:ℚ)) * (1 - 1/2^24)^4 := by ring
    linarith [hs.1, h, he.le, he.ge]
  -- slack consolidation and the final truncation
  have hx0 : (0:ℚ) ≤ (1 - wl.weight) * (c:ℚ) + wl.weight * (n:ℚ) := add_nonneg hwc0 hwn0
  have hconsu : ((1 - wl.weight) * (c:ℚ) + wl.weight * (n:ℚ)) * (1 + 1/2^24)^4 ≤
      ((1 - wl.weight) * (c:ℚ) + wl.weight * (n:ℚ)) * (1 + 1/2^21) :=
    mul_le_mul_of_nonneg_left (by norm_num) hx0
  have hconsl : ((1 - wl.weight) * (c:ℚ) + wl.weight * (n:ℚ)) * (1 - 1/2^21) ≤
      ((1 - wl.weight) * (c:ℚ) + wl.weight * (n:ℚ)) * (1 - 1/2^24)^4 :=
    mul_le_mul_of_nonneg_left (by norm_num) hx0
  have hfloor_ub := Nat.floor_le hs0
  have hfloor_lb := Nat.sub_one_lt_floor sfin
  constructor
  · linarith
  · linarith

/-- Claim C6 counterexample: with the default weight 1/2, a prior
average and a new response both of 16777219 ns (status 200), the `as
f32` conversion rounds 16777219 to 16777220 (ties to even), and the
computed average is 16777220 ns — strictly above both endpoints and
different from the exact nanosecond EMA, refuting the claimed exact-EMA
equality and inclusive betweenness. -/
theorem c6_exact_ema_counterexample :
    (WeightedLog.calculate WeightedLog.default ⟨16777219, 1, 0⟩ 16777219 200).response_avg =
      16777220 ∧
    ¬((WeightedLog.calculate WeightedLog.default ⟨16777219, 1, 0⟩ 16777219 200).response_avg ≤
        max 16777219 16777219) ∧
    (WeightedLog.calculate WeightedLog.default ⟨16777219, 1, 0⟩ 16777219 200).response_avg ≠
      ⌊(1 - WeightedLog.default.weight) * ((16777219 : ℕ) : ℚ) +
          WeightedLog.default.weight * ((16777219 : ℕ) : ℚ)⌋₊ := by
  have e1 : f32round ((16777219 : ℕ) : ℚ) = 16777220 := by
    have h := f32round_tie_up 16777219 24 (by norm_num) (by norm_num) 8388609
      (by norm_num) (by norm_num)
    push_cast
    norm_num at h
    convert h using 1
  have e2 : f32round ((1:ℚ)/2) = 1/2 := by
    have h := f32round_eq_self (1/2) (-1) (by norm_num) (by norm_num) 8388608 (by norm_num)
    exact h
  have e3 : f32round ((8388610 : ℚ)) = 8388610 := by
    exact f32round_eq_self 8388610 23 (by norm_num) (by norm_num) 8388610 (by norm_num)
  have e4 : f32round ((16777220 : ℚ)) = 16777220 := by
    exact f32round_eq_self 16777220 24 (by norm_num) (by norm_num) 8388610 (by norm_num)
  have hwra : (WeightedLog.calculate WeightedLog.default ⟨16777219, 1, 0⟩ 16777219 200).response_avg =
      16777220 := by
    show WeightedLog.weighted_response_average WeightedLog.default 16777219 16777219 = 16777220
    have hdef : WeightedLog.weighted_response_average WeightedLog.default 16777219 16777219 =
        ⌊f32round (f32round (f32round (1 - (1:ℚ)/2) * f32round ((16777219:ℕ) : ℚ)) +
          f32round ((1:ℚ)/2 * f32round ((16777219:ℕ) : ℚ)))⌋₊ := rfl
    rw [hdef, e1]
    rw [show (1 : ℚ) - 1/2 = 1/2 by norm_num, e2]
    rw [show (1:ℚ)/2 * (16777220 : ℚ) = 8388610 by norm_num, e3]
    rw [show (8388610 : ℚ) + 8388610 = 16777220 by norm_num, e4]
    rw [show (16777220 : ℚ) = ((16777220 : ℕ) : ℚ) by norm_num, Nat.floor_natCast]
  refine ⟨hwra, ?_, ?_⟩
  · rw [hwra]
    norm_num
  · rw [hwra]
    have hex : (1 - WeightedLog.default.weight) * ((16777219 : ℕ) : ℚ) +
        WeightedLog.default.weight * ((16777219 : ℕ) : ℚ) = ((16777219 : ℕ) : ℚ) := by
      show (1 - (1:ℚ)/2) * ((16777219 : ℕ) : ℚ) + (1:ℚ)/2 * ((16777219 : ℕ) : ℚ) =
        ((16777219 : ℕ) : ℚ)
      ring
    rw [hex, Nat.floor_natCast]
    norm_num

/-- Claim C6 (amended): for every prior Score, new-response duration of
at most `2^63` ns and weight in `[0,1]`, the updated response average is
the nanosecond-domain EMA computed in `f32` arithmetic; it differs from
the exact `(1 − weight)·prior + weight·new` by at most a `2^-21`
relative error plus 1 ns of truncation, and for all status codes in
`[200,299]` it lies between the prior and new response values extended
by that same rounding slack. -/
theorem c6_response_average (wl : WeightedLog) (s : Score) (new_response status : ℕ)
    (hw0 : 0 ≤ wl.weight) (hw1 : wl.weight ≤ 1)
    (hc : s.response_avg ≤ 2^63) (hn : new_response ≤ 2^63) :
    |((WeightedLog.calculate wl s new_response status).response_avg : ℚ) -
        ((1 - wl.weight) * (s.response_avg : ℚ) + wl.weight * (new_response : ℚ))| ≤
      ((1 - wl.weight) * (s.response_avg : ℚ) + wl.weight * (new_response : ℚ)) / 2^21 + 1 ∧
    (200 ≤ status → status ≤ 299 →
      ((min s.response_avg new_response : ℕ) : ℚ) * (1 - 1/2^21) - 1 <
        ((WeightedLog.calculate wl s new_response status).response_avg : ℚ) ∧
      ((WeightedLog.calculate wl s new_response status).response_avg : ℚ) ≤
        ((max s.response_avg new_response : ℕ) : ℚ) * (1 + 1/2^21)) := by
  have hcalc : (WeightedLog.calculate wl s new_response status).response_avg =
      WeightedLog.weighted_response_average wl s.response_avg new_response := rfl
  obtain ⟨hlo, hhi⟩ := wra_bounds wl s.response_avg new_response hw0 hw1
  have hw' : (0:ℚ) ≤ 1 - wl.weight := by linarith
  have hx0 : (0:ℚ) ≤ (1 - wl.weight) * (s.response_avg : ℚ) +
      wl.weight * (new_response : ℚ) :=
    add_nonneg (mul_nonneg hw' (Nat.cast_nonneg _)) (mul_nonneg hw0 (Nat.cast_nonneg _))
  have hminmax : ((min s.response_avg new_response : ℕ) : ℚ) ≤
        (1 - wl.weight) * (s.response_avg : ℚ) + wl.weight * (new_response : ℚ) ∧
      (1 - wl.weight) * (s.response_avg : ℚ) + wl.weight * (new_response : ℚ) ≤
        ((max s.response_avg new_response : ℕ) : ℚ) := by
    rcases le_total s.response_avg new_response with h | h
    · rw [min_eq_left h, max_eq_right h]
      have hq : ((s.response_avg : ℕ) : ℚ) ≤ ((new_response : ℕ) : ℚ) := by exact_mod_cast h
      constructor <;> nlinarith
    · rw [min_eq_right h, max_eq_left h]
      have hq : ((new_response : ℕ) : ℚ) ≤ ((s.response_avg : ℕ) : ℚ) := by exact_mod_cast h
      constructor <;> nlinarith
  rw [hcalc]
  constructor
  · rw [abs_sub_le_iff]
    constructor <;> nlinarith [hlo, hhi, hx0]
  · intro h200 h299
    have hminq : (0:ℚ) ≤ ((min s.response_avg new_response : ℕ) : ℚ) := Nat.cast_nonneg _
    constructor
    · have hmono : ((min s.response_avg new_response : ℕ) : ℚ) * (1 - 1/2^21) ≤
          ((1 - wl.weight) * (s.response_avg : ℚ) + wl.weight * (new_response : ℚ)) *
            (1 - 1/2^21) :=
        mul_le_mul_of_nonneg_right hminmax.1 (by norm_num)
      linarith
    · have hmono : ((1 - wl.weight) * (s.response_avg : ℚ) +
          wl.weight * (new_response : ℚ)) * (1 + 1/2^21) ≤
          ((max s.response_avg new_response : ℕ) : ℚ) * (1 + 1/2^21) :=
        mul_le_mul_of_nonneg_right hminmax.2 (by norm_num)
      linarith

/-- Witness for the amended C6 at the default strategy (weight 1/2), an
empty prior average, a 0 ns response and status 200. -/
theorem c6_response_average_witness :
    0 ≤ WeightedLog.default.weight ∧ WeightedLog.default.weight ≤ 1 ∧
    Score.default.response_avg ≤ 2^63 ∧ (0:ℕ) ≤ 2^63 ∧
    |((WeightedLog.calculate WeightedLog.default Score.default 0 200).response_avg : ℚ) -
        ((1 - WeightedLog.default.weight) * (Score.default.response_avg : ℚ) +
          WeightedLog.default.weight * ((0:ℕ) : ℚ))| ≤
      ((1 - WeightedLog.default.weight) * (Score.default.response_avg : ℚ) +
        WeightedLog.default.weight * ((0:ℕ) : ℚ)) / 2^21 + 1 ∧
    ((min Score.default.response_avg 0 : ℕ) : ℚ) * (1 - 1/2^21) - 1 <
      ((WeightedLog.calculate WeightedLog.default Score.default 0 200).response_avg : ℚ) ∧
    ((WeightedLog.calculate WeightedLog.default Score.default 0 200).response_avg : ℚ) ≤
      ((max Score.default.response_avg 0 : ℕ) : ℚ) * (1 + 1/2^21) := by
  have h := c6_response_average WeightedLog.default Score.default 0 200
    (by norm_num [WeightedLog.default]) (by norm_num [WeightedLog.default])
    (by norm_num [Score.default]) (by norm_num)
  exact ⟨by norm_num [WeightedLog.default], by norm_num [WeightedLog.default],
    by norm_num [Score.default], by norm_num, h.1,
    (h.2 (by norm_num) (by norm_num)).1, (h.2 (by norm_num) (by norm_num)).2⟩


/-- The test fixture's first calculation (`tests/strategy.rs`):
prior `{response_avg: 500ms, score: 0, reliability: 0}`, new response
300ms, status 200, under the default strategy. -/
def fixture1 : Score :=
  WeightedLog.calculate WeightedLog.default ⟨500000000, 1, 0⟩ 300000000 200

/-- The fixture's second calculation: the first result fed back with the
same 300ms response and status 200. -/
def fixture2 : Score :=
  WeightedLog.calculate WeightedLog.default fixture1 300000000 200

/-- Exact value of the first fixture step. -/
theorem fixture1_eq : fixture1 = ⟨400000000, 2107/2105, 1/1000⟩ := by
  simp only [fixture1, WeightedLog.calculate, Score.mk.injEq]
  refine ⟨?_, ?_, ?_⟩
  · show WeightedLog.weighted_response_average WeightedLog.default 500000000 300000000 =
      400000000
    have hdef : WeightedLog.weighted_response_average WeightedLog.default 500000000 300000000 =
        ⌊f32round (f32round (f32round (1 - (1:ℚ)/2) * f32round ((500000000:ℕ) : ℚ)) +
          f32round ((1:ℚ)/2 * f32round ((300000000:ℕ) : ℚ)))⌋₊ := rfl
    rw [hdef]
    rw [show ((500000000:ℕ) : ℚ) = (500000000:ℚ) by norm_num]
    rw [show ((300000000:ℕ) : ℚ) = (300000000:ℚ) by norm_num]
    rw [show (1:ℚ) - 1/2 = 1/2 by norm_num, f32round_one_half]
    rw [f32round_eq_self (500000000:ℚ) 28 (by norm_num) (by norm_num) 15625000 (by norm_num)]
    rw [f32round_eq_self (300000000:ℚ) 28 (by norm_num) (by norm_num) 9375000 (by norm_num)]
    rw [show (1:ℚ)/2 * 500000000 = 250000000 by norm_num]
    rw [show (1:ℚ)/2 * 300000000 = 150000000 by norm_num]
    rw [f32round_eq_self (250000000:ℚ) 27 (by norm_num) (by norm_num) 15625000 (by norm_num)]
    rw [f32round_eq_self (150000000:ℚ) 27 (by norm_num) (by norm_num) 9375000 (by norm_num)]
    rw [show (250000000:ℚ) + 150000000 = 400000000 by norm_num]
    rw [f32round_eq_self (400000000:ℚ) 28 (by norm_num) (by norm_num) 12500000 (by norm_num)]
    rw [show (400000000:ℚ) = ((400000000:ℕ) : ℚ) by norm_num, Nat.floor_natCast]
  · simp only [WeightedLog.calculate_logarithmic_base, WeightedLog.adjust_reliability,
      WeightedLog.get_status_weight, WeightedLog.default, rustClamp,
      WeightedLog.RELIABILITY_FACTOR, WeightedLog.STATUS_NO_ERROR]
    rw [abs_of_nonpos (by norm_num)]
    norm_num
  · simp only [WeightedLog.adjust_reliability, WeightedLog.default, rustClamp,
      WeightedLog.RELIABILITY_FACTOR]
    norm_num

/-- Exact value of the second fixture step. -/
theorem fixture2_eq : fixture2 = ⟨350000000, 2109/2105, 1/500⟩ := by
  rw [fixture2, fixture1_eq]
  simp only [WeightedLog.calculate, Score.mk.injEq]
  refine ⟨?_, ?_, ?_⟩
  · show WeightedLog.weighted_response_average WeightedLog.default 400000000 300000000 =
      350000000
    have hdef : WeightedLog.weighted_response_average WeightedLog.default 400000000 300000000 =
        ⌊f32round (f32round (f32round (1 - (1:ℚ)/2) * f32round ((400000000:ℕ) : ℚ)) +
          f32round ((1:ℚ)/2 * f32round ((300000000:ℕ) : ℚ)))⌋₊ := rfl
    rw [hdef]
    rw [show ((400000000:ℕ) : ℚ) = (400000000:ℚ) by norm_num]
    rw [show ((300000000:ℕ) : ℚ) = (300000000:ℚ) by norm_num]
    rw [show (1:ℚ) - 1/2 = 1/2 by norm_num, f32round_one_half]
    rw [f32round_eq_self (400000000:ℚ) 28 (by norm_num) (by norm_num) 12500000 (by norm_num)]
    rw [f32round_eq_self (300000000:ℚ) 28 (by norm_num) (by norm_num) 9375000 (by norm_num)]
    rw [show (1:ℚ)/2 * 400000000 = 200000000 by norm_num]
    rw [show (1:ℚ)/2 * 300000000 = 150000000 by norm_num]
    rw [f32round_eq_self (200000000:ℚ) 27 (by norm_num) (by norm_num) 12500000 (by norm_num)]
    rw [f32round_eq_self (150000000:ℚ) 27 (by norm_num) (by norm_num) 9375000 (by norm_num)]
    rw [show (200000000:ℚ) + 150000000 = 350000000 by norm_num]
    rw [f32round_eq_self (350000000:ℚ) 28 (by norm_num) (by norm_num) 10937500 (by norm_num)]
    rw [show (350000000:ℚ) = ((350000000:ℕ) : ℚ) by norm_num, Nat.floor_natCast]
  · simp only [WeightedLog.calculate_logarithmic_base, WeightedLog.adjust_reliability,
      WeightedLog.get_status_weight, WeightedLog.default, rustClamp,
      WeightedLog.RELIABILITY_FACTOR, WeightedLog.STATUS_NO_ERROR]
    rw [abs_of_nonpos (by norm_num)]
    norm_num
  · simp only [WeightedLog.adjust_reliability, WeightedLog.default, rustClamp,
      WeightedLog.RELIABILITY_FACTOR]
    norm_num

/-- If `y` is close to `1`, `log y` is pinned between `1 - 1/y` and
`y - 1`; closeness of `c` to both bounds gives `|log y - c| < eps`. -/
theorem log_close (y c eps : ℝ) (hy : 0 < y)
    (h1 : y - 1 - c < eps) (h2 : c - 1 + 1/y < eps) :
    |Real.log y - c| < eps := by
  rw [abs_sub_lt_iff]
  constructor
  · have hub := Real.log_le_sub_one_of_pos hy
    linarith
  · have hlb := Real.one_sub_inv_le_log_of_pos hy
    rw [one_div] at h2
    linarith

/-- Claim C7: the sequential EMA fixture of the default strategy. -/
theorem c7_fixture :
    fixture1.response_avg = 400000000 ∧
    fixture1.reliability = 1/1000 ∧
    |Real.log (fixture1.score_base : ℝ) - 949647/10^9| < 1/10^6 ∧
    fixture2.response_avg = 350000000 ∧
    fixture2.reliability = 2/1000 ∧
    |Real.log (fixture2.score_base : ℝ) - 1898393/10^9| < 2/10^6 := by
  rw [fixture1_eq, fixture2_eq]
  refine ⟨rfl, by norm_num, ?_, rfl, by norm_num, ?_⟩
  · have hcast : (((2107:ℚ)/2105 : ℚ) : ℝ) = 2107/2105 := by norm_num
    show |Real.log (((2107:ℚ)/2105 : ℚ) : ℝ) - 949647/10^9| < 1/10^6
    rw [hcast]
    apply log_close <;> norm_num
  · have hcast : (((2109:ℚ)/2105 : ℚ) : ℝ) = 2109/2105 := by norm_num
    show |Real.log (((2109:ℚ)/2105 : ℚ) : ℝ) - 1898393/10^9| < 2/10^6
    rw [hcast]
    apply log_close <;> norm_num

/-- An `f32` score value as the store sees it: either NaN or an ordered
finite value. Only the aspects relevant to `partial_cmp` are embedded. -/
inductive F32 where
  | nan : F32
  | val : ℚ → F32
deriving DecidableEq

/-- `f32::partial_cmp`: `None` whenever either side is NaN, otherwise
the order of the values. -/
def F32.partial_cmp : F32 → F32 → Option Ordering
  | F32.val a, F32.val b => some (compare a b)
  | _, _ => none

/-- The fold of Rust's `Iterator::max_by` with the comparator of
`Memory::best_url`, which unwraps `partial_cmp` with
`expect("failed to compare scores")`. The accumulator is kept when the
comparison is `Greater`, otherwise the new element wins (so ties go to
the later element, as in `core::cmp::max_by`); `none` models the panic
of the `expect` when `partial_cmp` returns `None`. -/
def max_by_fold (acc : String × F32) : List (String × F32) → Option (String × F32)
  | [] => some acc
  | y :: ys =>
    match F32.partial_cmp acc.2 y.2 with
    | none => none
    | some Ordering.gt => max_by_fold acc ys
    | some _ => max_by_fold y ys

/-- `Memory::best_url` (src/store/memory.rs) over a snapshot of the
map's entries in iteration order: `max_by` on the entries, then the key.
The outer `Option` models the panic (`none` = the `expect` in the
comparator fired); the inner one is the `Option<String>` result. -/
def best_url (entries : List (String × F32)) : Option (Option String) :=
  match entries with
  | [] => some none
  | x :: xs => (max_by_fold x xs).map (fun m => some m.1)

/-- Claim C2 counterexample evidence: on a two-entry store where one
score is NaN, `Memory::best_url` reaches the `expect` on the `None` of
`partial_cmp` and panics (modelled as `none`) — NaN entries are not
excluded and the maximum scan is not total. -/
theorem c2_best_url_nan_panics :
    best_url [("a", F32.val (9/10)), ("b", F32.nan)] = none := rfl

/-- Claim C9: `best_url()` on a Memory store containing no entries
returns `Ok(None)` — the absence of a best key is reported as none,
never as an error. -/
theorem c9_best_url_empty : best_url [] = some none := rfl

/-- `Service::update_score` (src/lib.rs): fetch the prior score — only
`Ok(Some(score))` uses the stored prior, every other outcome (a miss
`Ok(None)` or a `StoreError`) falls to `Score::default()` — compute the
new score with the strategy, then `store.set(url, score).await.expect(
"failed to set score")`. The store backend is abstracted by the outcome
of its calls: `store_get url` is the result of `get`, `store_set_ok url`
whether `set` succeeds. The result is the score actually written, and
`none` models the panic of the `expect` when `set` fails. -/
def update_score (store_get : String → Except Unit (Option Score))
    (store_set_ok : String → Bool) (wl : WeightedLog)
    (url : String) (elapsed : ℕ) (status : ℕ) : Option Score :=
  let score : Score :=
    match store_get url with
    | Except.ok (some s) => WeightedLog.calculate wl s elapsed status
    | _ => WeightedLog.calculate wl Score.default elapsed status
  if store_set_ok url then some score else none

/-- The per-probe fan-out of `Service::update`: `join_all` over
`process_request`, each ending in `update_score`. A panic in any
`update_score` unwinds through `join_all` and aborts `update()` itself,
so the batch result is `none` as soon as one probe's `set` fails;
otherwise it is the list of scores written. Probes are given as
`(url, elapsed, status)` triples (the transport outcome, status 0 for a
transport failure, is resolved before `update_score` is reached). -/
def update_batch (store_get : String → Except Unit (Option Score))
    (store_set_ok : String → Bool) (wl : WeightedLog)
    (probes : List (String × ℕ × ℕ)) : Option (List (String × Score)) :=
  probes.mapM (fun p =>
    (update_score store_get store_set_ok wl p.1 p.2.1 p.2.2).map (fun s => (p.1, s)))

/-- Claim C1 divergence evidence: in a two-probe batch where the store's
`set` fails for the first probe ("a") and would succeed for the second
("b"), `update()` does not log-and-skip: `update_score` hits the
`expect("failed to set score")`, the panic aborts the whole batch
(result `none`), the second probe is never written, and `update()`
itself crashes. -/
theorem c1_store_set_failure_crashes_update :
    update_batch (fun _ => Except.ok none) (fun u => u ≠ "a") WeightedLog.default
      [("a", 0, 200), ("b", 0, 200)] = none ∧
    update_batch (fun _ => Except.ok none) (fun _ => true) WeightedLog.default
      [("a", 0, 200), ("b", 0, 200)] ≠ none := by
  have hok : update_batch (fun _ => Except.ok none) (fun _ => true) WeightedLog.default
      [("a", 0, 200), ("b", 0, 200)] =
      some [("a", WeightedLog.calculate WeightedLog.default Score.default 0 200),
            ("b", WeightedLog.calculate WeightedLog.default Score.default 0 200)] := rfl
  exact ⟨rfl, by rw [hok]; exact Option.some_ne_none _⟩

/-- Claim C10: during `update()`, a `Store::get` that returns an error is
absorbed exactly like a miss: the default Score `{0,0,0}` is the prior,
a new score is still computed via the strategy and written via
`Store::set`, and the read error is never propagated (the only
non-success left is the unrelated `set` panic). -/
theorem c10_get_error_like_miss (store_get : String → Except Unit (Option Score))
    (store_set_ok : String → Bool) (wl : WeightedLog)
    (url : String) (elapsed status : ℕ)
    (herr : store_get url = Except.error ()) :
    update_score store_get store_set_ok wl url elapsed status =
      update_score (fun _ => Except.ok none) store_set_ok wl url elapsed status ∧
    (store_set_ok url = true →
      update_score store_get store_set_ok wl url elapsed status =
        some (WeightedLog.calculate wl Score.default elapsed status)) := by
  constructor
  · simp only [update_score, herr]
  · intro hset
    simp only [update_score, herr, hset, if_true]

/-- Witness for C10: a store whose `get` always errors and whose `set`
always succeeds, at a concrete probe. -/
theorem c10_get_error_like_miss_witness :
    (fun _ : String => (Except.error () : Except Unit (Option Score))) "u" = Except.error () ∧
    update_score (fun _ => Except.error ()) (fun _ => true) WeightedLog.default "u" 0 200 =
      some (WeightedLog.calculate WeightedLog.default Score.default 0 200) := by
  refine ⟨rfl, ?_⟩
  exact (c10_get_error_like_miss (fun _ => Except.error ()) (fun _ => true)
    WeightedLog.default "u" 0 200 rfl).2 rfl

/-- A monitored request, reduced to the data `Service::remove_request`
inspects: the string form `r.uri().to_string()` of its URL (a method
field is kept so entries are not bare URLs). -/
structure Request where
  method : String
  url : String
deriving DecidableEq

/-- The monitored URLs, `Service::urls()`. -/
def urls (requests : List Request) : List String :=
  requests.map (fun r => r.url)

/-- `Service::remove_request` (src/lib.rs): `Uri::from_str(url)?` —
URI parsing is an external capability, abstracted as `parseUri`
returning the normalized `to_string` form or `none` — then
`self.requests.retain(|r| r.uri().to_string() != url)`. The state is
passed explicitly: the function returns the new request list and
`some ()` on success, or the unchanged list and `none` when the `?`
propagates the parse error (before any mutation). -/
def remove_request (parseUri : String → Option String)
    (requests : List Request) (url : String) : List Request × Option Unit :=
  match parseUri url with
  | none => (requests, none)
  | some u => (requests.filter (fun r => r.url ≠ u), some ())

/-- Claim C8: `remove_request` fails on an unparsable URL with no
mutation; otherwise it removes exactly the entries whose URL equals the
normalized URL and succeeds; it is idempotent, and removing an absent
URL leaves `urls()` unchanged and reports success. -/
theorem c8_remove_request (parseUri : String → Option String)
    (requests : List Request) (url : String) :
    (parseUri url = none → remove_request parseUri requests url = (requests, none)) ∧
    (∀ u, parseUri url = some u →
      remove_request parseUri requests url =
        (requests.filter (fun r => r.url ≠ u), some ()) ∧
      remove_request parseUri (remove_request parseUri requests url).1 url =
        remove_request parseUri requests url ∧
      ((∀ r ∈ requests, r.url ≠ u) →
        urls (remove_request parseUri requests url).1 = urls requests ∧
        (remove_request parseUri requests url).2 = some ())) := by
  refine ⟨fun h => by simp only [remove_request, h], fun u hu => ?_⟩
  have hstep : remove_request parseUri requests url =
      (requests.filter (fun r => r.url ≠ u), some ()) := by
    simp only [remove_request, hu]
  refine ⟨hstep, ?_, fun habs => ?_⟩
  · rw [hstep]
    simp [remove_request, hu, List.filter_filter]
  · have hall : requests.filter (fun r => r.url ≠ u) = requests :=
      List.filter_eq_self.mpr (fun r hr => by simpa using habs r hr)
    rw [hstep, hall]
    exact ⟨rfl, rfl⟩

/-- Witness for C8: the identity normalizer, one monitored request, and
the removal of an absent URL. -/
theorem c8_remove_request_witness :
    (fun s : String => some s) "http://b/" = some "http://b/" ∧
    remove_request (fun s => some s) [⟨"GET", "http://a/"⟩] "http://b/" =
      ([⟨"GET", "http://a/"⟩].filter (fun r => r.url ≠ "http://b/"), some ()) := by
  refine ⟨rfl, ?_⟩
  exact ((c8_remove_request (fun s => some s) [⟨"GET", "http://a/"⟩] "http://b/").2
    "http://b/" rfl).1

end Isup
